import Mathlib

/-!
# Verification of the `gosql2pc` two-phase-commit coordinator

Shallow embedding of the Go library `gosql2pc` (files `participant.go` /
`twophase.go`): a `Participant` wraps one SQL backend and one unit of work,
exposing `prepare` / `commit` / `rollback`; the coordinator `Do` drives
phase 1 (prepare all, in order, stopping at the first failure), phase 2
(commit all, in order, stopping at the first failure, wrapping that failure
in the `ErrCommitFailed` error), and a deferred safety-net pass that calls
`rollback` on every participant on every exit path, logging (but never
propagating) rollback failures.

The backend (`*sql.DB`), the caller-supplied work function and the random
UUID source are modelled as per-participant oracles (`Env`): each backend
step either succeeds (`none`) or fails with an error message (`some e`),
mirroring Go's `error` values.  Every operation additionally returns the
list of externally observable events (backend calls and log-sink calls) it
performed, so that claims about which backend commands are issued, and in
which order, can be stated.  Log messages follow the Go format strings
(`"rollback failed: %s"`, `"commit failed: %s"`), and the wrapped
commit-failure error `fmt.Errorf("%w: %s", ErrCommitFailed, err)` is
modelled by its rendered message `"commit failed: " ++ e`.
-/

/-- Mirror of the Go struct `Participant`'s mutable fields:
`txid string; prepared, committed, rollbacked bool`. -/
structure Participant where
  txid : String
  prepared : Bool
  committed : Bool
  rollbacked : Bool
deriving Repr, DecidableEq

/-- Mirror of `NewParticipant`: zero value of the mutable fields. -/
def NewParticipant : Participant := ⟨"", false, false, false⟩

/-- Per-participant oracle for the backend, the work function and the UUID
source.  `beginTx`, `work` and `prepareExec` receive the cancellable
context (they model `db.BeginTx(ctx, nil)`, `o.do(ctx, tx)` and
`tx.ExecContext(ctx, "PREPARE TRANSACTION ...")`); `commitExec` and
`rollbackExec` do not (they model `db.Exec("COMMIT PREPARED ...")` and
`db.Exec("ROLLBACK PREPARED ...")`, issued without a context).  `uuid`
models the random token returned by `uuid.New().String()`. -/
structure Env (Ctx : Type) where
  beginTx : Ctx → Option String
  work : Ctx → Option String
  prepareExec : Ctx → String → Option String
  commitExec : String → Option String
  rollbackExec : String → Option String
  uuid : String

/-- Externally observable events: backend calls, the entry of the
`rollback` method (so that "rollback is called on every participant" is
statable even when the guard makes no backend call), and log-sink calls. -/
inductive Event where
  | beginTxCall : Event
  | workCall : Event
  | txRollbackCall : Event
  | prepareExecCall : String → Event
  | commitExecCall : String → Event
  | rollbackEnter : Event
  | rollbackExecCall : String → Event
  | logCall : String → Event
deriving Repr, DecidableEq

/-- Mirror of `getPreparedGid()`: `defaultPrefix + uuid.New().String()`,
with the random token taken from the oracle. -/
def getPreparedGid {Ctx : Type} (env : Env Ctx) : String :=
  "gosql2pc-" ++ env.uuid

/-- Mirror of `(o *Participant) prepare(ctx)`:
open a transaction, run the work function (with the deferred
`tx.Rollback()` firing on every later exit), assign `o.txid` (before the
`PREPARE TRANSACTION` statement, since the statement embeds it), promote,
and set `prepared` on success.  Returns the updated participant, the error
result, and the events performed, in order. -/
def Participant.prepare {Ctx : Type} (o : Participant) (env : Env Ctx)
    (ctx : Ctx) : Participant × Option String × List Event :=
  match env.beginTx ctx with
  | some e => (o, some e, [.beginTxCall])
  | none =>
    match env.work ctx with
    | some e => (o, some e, [.beginTxCall, .workCall, .txRollbackCall])
    | none =>
      match env.prepareExec ctx (getPreparedGid env) with
      | some e =>
          ({ o with txid := getPreparedGid env }, some e,
            [.beginTxCall, .workCall, .prepareExecCall (getPreparedGid env),
              .txRollbackCall])
      | none =>
          ({ o with txid := getPreparedGid env, prepared := true }, none,
            [.beginTxCall, .workCall, .prepareExecCall (getPreparedGid env),
              .txRollbackCall])

/-- Mirror of `(o *Participant) commit()`: no guard; issue
`COMMIT PREPARED '<txid>'` against the stored identifier (whatever it is)
and set `committed` on success. -/
def Participant.commit {Ctx : Type} (o : Participant) (env : Env Ctx) :
    Participant × Option String × List Event :=
  match env.commitExec o.txid with
  | some e => (o, some e, [.commitExecCall o.txid])
  | none => ({ o with committed := true }, none, [.commitExecCall o.txid])

/-- Mirror of `(o *Participant) rollback()`: guarded by
`o.txid == "" || o.rollbacked || o.committed`; otherwise issue
`ROLLBACK PREPARED '<txid>'` and set `rollbacked` on success (a backend
failure leaves the state unchanged).  The `rollbackEnter` event records the
method call itself. -/
def Participant.rollback {Ctx : Type} (o : Participant) (env : Env Ctx) :
    Participant × Option String × List Event :=
  if o.txid = "" ∨ o.rollbacked = true ∨ o.committed = true then
    (o, none, [.rollbackEnter])
  else
    match env.rollbackExec o.txid with
    | some e => (o, some e, [.rollbackEnter, .rollbackExecCall o.txid])
    | none =>
        ({ o with rollbacked := true }, none,
          [.rollbackEnter, .rollbackExecCall o.txid])

/-- A single lifecycle call on a participant (used to quantify over
arbitrary sequences of operations). -/
inductive Op (Ctx : Type) where
  | prepareOp : Ctx → Op Ctx
  | commitOp : Op Ctx
  | rollbackOp : Op Ctx

/-- Apply one lifecycle call, keeping only the state change. -/
def runOp {Ctx : Type} (env : Env Ctx) (p : Participant) : Op Ctx → Participant
  | .prepareOp ctx => (p.prepare env ctx).1
  | .commitOp => (p.commit env).1
  | .rollbackOp => (p.rollback env).1

/-- Apply a sequence of lifecycle calls. -/
def runOps {Ctx : Type} (env : Env Ctx) (p : Participant) :
    List (Op Ctx) → Participant
  | [] => p
  | op :: rest => runOps env (runOp env p op) rest

/-- Phase 1 of `Do`: `for i := range participants { prepare(ctx) }`,
stopping at the first error.  Events are tagged with the (0-based) index of
the participant that performed them. -/
def prepareLoop {Ctx : Type} (ctx : Ctx) :
    Nat → List (Env Ctx × Participant) →
    List (Env Ctx × Participant) × Option String × List (Nat × Event)
  | _, [] => ([], none, [])
  | i, (env, p) :: rest =>
    match p.prepare env ctx with
    | (p', some e, tr) =>
        ((env, p') :: rest, some e, tr.map (fun ev => (i, ev)))
    | (p', none, tr) =>
        let t := prepareLoop ctx (i + 1) rest
        ((env, p') :: t.1, t.2.1, tr.map (fun ev => (i, ev)) ++ t.2.2)

/-- Phase 2 of `Do`: `for i := range participants { commit() }`, stopping
at the first error, which is also reported to the log sink
(`log("commit failed: %s", err)`). -/
def commitLoop {Ctx : Type} :
    Nat → List (Env Ctx × Participant) →
    List (Env Ctx × Participant) × Option String × List (Nat × Event)
  | _, [] => ([], none, [])
  | i, (env, p) :: rest =>
    match p.commit env with
    | (p', some e, tr) =>
        ((env, p') :: rest, some e,
          tr.map (fun ev => (i, ev)) ++
            [(i, .logCall ("commit failed: " ++ e))])
    | (p', none, tr) =>
        let t := commitLoop (i + 1) rest
        ((env, p') :: t.1, t.2.1, tr.map (fun ev => (i, ev)) ++ t.2.2)

/-- The deferred safety net of `Do`: rollback every participant, logging
failures (`log("rollback failed: %s", err)`) and never propagating them. -/
def rollbackAll {Ctx : Type} :
    Nat → List (Env Ctx × Participant) →
    List (Env Ctx × Participant) × List (Nat × Event)
  | _, [] => ([], [])
  | i, (env, p) :: rest =>
    match p.rollback env with
    | (p', r, tr) =>
      let t := rollbackAll (i + 1) rest
      ((env, p') :: t.1,
        tr.map (fun ev => (i, ev)) ++
          (match r with
           | some e => [(i, Event.logCall ("rollback failed: " ++ e))]
           | none => []) ++ t.2)

/-- Mirror of `Do(ctx, params)`: phase 1, phase 2 (entered only when every
prepare succeeded, wrapping a commit failure as
`fmt.Errorf("%w: %s", ErrCommitFailed, err)`), and the deferred
`rollbackAll` pass executed on every exit path before returning.  Returns
the error result, the final participant states, and the full event trace
in execution order. -/
def Do {Ctx : Type} (ctx : Ctx) (l : List (Env Ctx × Participant)) :
    Option String × List Participant × List (Nat × Event) :=
  match prepareLoop ctx 0 l with
  | (l1, some e, tr1) =>
    let t := rollbackAll 0 l1
    (some e, t.1.map Prod.snd, tr1 ++ t.2)
  | (l1, none, tr1) =>
    match commitLoop 0 l1 with
    | (l2, some e, tr2) =>
      let t := rollbackAll 0 l2
      (some ("commit failed: " ++ e), t.1.map Prod.snd, tr1 ++ tr2 ++ t.2)
    | (l2, none, tr2) =>
      let t := rollbackAll 0 l2
      (none, t.1.map Prod.snd, tr1 ++ tr2 ++ t.2)

/-- Fresh participants paired with their oracles, as built by
`NewParticipant` before a run. -/
def initPairs {Ctx : Type} (envs : List (Env Ctx)) :
    List (Env Ctx × Participant) :=
  envs.map (fun env => (env, NewParticipant))

/-- State of a participant right after a successful `prepare`. -/
def pState {Ctx : Type} (env : Env Ctx) : Participant :=
  ⟨getPreparedGid env, true, false, false⟩

/-- State of a participant right after a successful `prepare` and a
successful `commit`. -/
def cState {Ctx : Type} (env : Env Ctx) : Participant :=
  ⟨getPreparedGid env, true, true, false⟩

/-- Recognises backend commit events in a tagged trace. -/
def isCommitCall : Nat × Event → Bool
  | (_, .commitExecCall _) => true
  | _ => false

/-- Recognises backend rollback events in a tagged trace. -/
def isRbExec : Nat × Event → Bool
  | (_, .rollbackExecCall _) => true
  | _ => false

/-- The commit events phase 2 performs on an all-successful list of
participants, in list order. -/
def commitSeq {Ctx : Type} (i : Nat) : List (Env Ctx) → List (Nat × Event)
  | [] => []
  | env :: rest =>
      (i, Event.commitExecCall (getPreparedGid env)) :: commitSeq (i + 1) rest

/-- The indices at which a trace records an entry into `rollback`. -/
def rollbackEnterTags (tr : List (Nat × Event)) : List Nat :=
  tr.filterMap (fun x =>
    match x.2 with
    | Event.rollbackEnter => some x.1
    | _ => none)

/-- The event block of a run of successful prepares, in list order. -/
def prepTraceOf {Ctx : Type} (i : Nat) : List (Env Ctx) → List (Nat × Event)
  | [] => []
  | env :: rest =>
      (i, Event.beginTxCall) :: (i, Event.workCall) ::
        (i, Event.prepareExecCall (getPreparedGid env)) ::
          (i, Event.txRollbackCall) :: prepTraceOf (i + 1) rest

/-- The events one participant contributes to the safety-net pass,
including the log event recorded on a rollback failure. -/
def rbEvents {Ctx : Type} (i : Nat) (env : Env Ctx) (p : Participant) :
    List (Nat × Event) :=
  match p.rollback env with
  | (_, some e, tr) =>
      tr.map (fun ev => (i, ev)) ++
        [(i, Event.logCall ("rollback failed: " ++ e))]
  | (_, none, tr) => tr.map (fun ev => (i, ev))

/-- The full trace of the safety-net pass over a list of participants. -/
def rbTraceOf {Ctx : Type} (i : Nat) :
    List (Env Ctx × Participant) → List (Nat × Event)
  | [] => []
  | (env, p) :: rest => rbEvents i env p ++ rbTraceOf (i + 1) rest

/-- Everything in a participant's oracle/state pair except the rollback
oracle (used to state that the run's primary result cannot depend on the
outcomes of safety-net rollbacks). -/
def stripRb {Ctx : Type} (x : Env Ctx × Participant) :
    (Ctx → Option String) × (Ctx → Option String) ×
      (Ctx → String → Option String) × (String → Option String) ×
      String × Participant :=
  (x.1.beginTx, x.1.work, x.1.prepareExec, x.1.commitExec, x.1.uuid, x.2)

/-- Success of every backend step of `prepare` under context `ctx`. -/
def prepOk {Ctx : Type} (ctx : Ctx) (env : Env Ctx) : Prop :=
  env.beginTx ctx = none ∧ env.work ctx = none ∧
    env.prepareExec ctx (getPreparedGid env) = none

/-- Success of the backend commit of a prepared participant. -/
def commitOk {Ctx : Type} (env : Env Ctx) : Prop :=
  env.commitExec (getPreparedGid env) = none

/-- Events that phase 1 (`prepare`) can emit. -/
def isPhase1Ev : Event → Bool
  | .beginTxCall => true
  | .workCall => true
  | .txRollbackCall => true
  | .prepareExecCall _ => true
  | _ => false

/-- Events that phase 2 (`commit` plus its failure log) can emit. -/
def isPhase2Ev : Event → Bool
  | .commitExecCall _ => true
  | .logCall _ => true
  | _ => false

/-- Events that the safety-net pass (`rollback` plus its failure log) can
emit. -/
def isRbPassEv : Event → Bool
  | .rollbackEnter => true
  | .rollbackExecCall _ => true
  | .logCall _ => true
  | _ => false

example :
    (NewParticipant.prepare
      (⟨fun _ => none, fun _ => none, fun _ _ => none,
        fun _ => none, fun _ => none, "u"⟩ : Env Unit) ()).1 =
      ⟨"gosql2pc-u", true, false, false⟩ := by
  decide

example :
    (Do () (initPairs
      [(⟨fun _ => none, fun _ => none, fun _ _ => none,
        fun _ => none, fun _ => none, "u"⟩ : Env Unit)])).1 = none := by
  decide

/-- Recognises backend rollback calls in an untagged participant trace. -/
def isRbExecEv : Event → Bool
  | .rollbackExecCall _ => true
  | _ => false

/-- Oracle on which every backend step and the work function succeed. -/
def envOkU : Env Unit :=
  ⟨fun _ => none, fun _ => none, fun _ _ => none, fun _ => none,
    fun _ => none, "u"⟩

/-- Oracle on which the `PREPARE TRANSACTION` promotion step fails. -/
def envPromoteFailU : Env Unit :=
  ⟨fun _ => none, fun _ => none, fun _ _ => some "boom", fun _ => none,
    fun _ => none, "u"⟩

/-- Oracle on which prepare succeeds and the backend commit fails. -/
def envCommitFailU : Env Unit :=
  ⟨fun _ => none, fun _ => none, fun _ _ => none, fun _ => some "boom",
    fun _ => none, "u"⟩

/-- Oracle on which prepare succeeds and the backend rollback fails. -/
def envRbFailU : Env Unit :=
  ⟨fun _ => none, fun _ => none, fun _ _ => none, fun _ => none,
    fun _ => some "rberr", "u"⟩

/-- Oracle on which prepare succeeds, the backend commit fails and the
backend rollback fails too. -/
def envCommitFailRbFailU : Env Unit :=
  ⟨fun _ => none, fun _ => none, fun _ _ => none, fun _ => some "boom",
    fun _ => some "rberr", "u"⟩

/-- All-success oracle over a `Bool`-valued context. -/
def envOkB : Env Bool :=
  ⟨fun _ => none, fun _ => none, fun _ _ => none, fun _ => none,
    fun _ => none, "u"⟩

/-! ## Participant-level lemmas -/

lemma getPreparedGid_ne_empty {Ctx : Type} (env : Env Ctx) :
    getPreparedGid env ≠ "" := by
  intro h
  have h2 := congrArg String.length h
  simp [getPreparedGid, String.length_append] at h2
  exact absurd h2.1 (by decide)

lemma prepare_ok {Ctx : Type} (env : Env Ctx) (ctx : Ctx)
    (h : prepOk ctx env) :
    NewParticipant.prepare env ctx =
      (pState env, none,
        [Event.beginTxCall, Event.workCall,
          Event.prepareExecCall (getPreparedGid env), Event.txRollbackCall]) := by
  obtain ⟨h1, h2, h3⟩ := h
  simp [Participant.prepare, h1, h2, h3, pState, NewParticipant]

lemma commit_trace {Ctx : Type} (env : Env Ctx) (p : Participant) :
    (p.commit env).2.2 = [Event.commitExecCall p.txid] := by
  unfold Participant.commit
  cases env.commitExec p.txid <;> rfl

lemma commit_ok_pState {Ctx : Type} (env : Env Ctx) (h : commitOk env) :
    (pState env).commit env =
      (cState env, none, [Event.commitExecCall (getPreparedGid env)]) := by
  simp [Participant.commit, pState, cState, commitOk] at h ⊢
  simp [h]

lemma rollback_noop {Ctx : Type} (env : Env Ctx) (p : Participant)
    (h : p.txid = "" ∨ p.rollbacked = true ∨ p.committed = true) :
    p.rollback env = (p, none, [Event.rollbackEnter]) := by
  simp [Participant.rollback, h]

lemma rollback_active {Ctx : Type} (env : Env Ctx) (p : Participant)
    (h1 : p.txid ≠ "") (h2 : p.rollbacked = false) (h3 : p.committed = false) :
    p.rollback env =
      match env.rollbackExec p.txid with
      | some e => (p, some e, [Event.rollbackEnter, Event.rollbackExecCall p.txid])
      | none =>
          ({ p with rollbacked := true }, none,
            [Event.rollbackEnter, Event.rollbackExecCall p.txid]) := by
  simp [Participant.rollback, h1, h2, h3]

lemma prepare_events {Ctx : Type} (env : Env Ctx) (ctx : Ctx) (p : Participant) :
    ∀ ev ∈ (p.prepare env ctx).2.2, isPhase1Ev ev = true := by
  unfold Participant.prepare
  cases env.beginTx ctx <;> cases env.work ctx <;>
    cases env.prepareExec ctx (getPreparedGid env) <;> simp [isPhase1Ev]

lemma rollback_events {Ctx : Type} (env : Env Ctx) (p : Participant) :
    ∀ ev ∈ (p.rollback env).2.2,
      ev = Event.rollbackEnter ∨ ev = Event.rollbackExecCall p.txid := by
  unfold Participant.rollback
  by_cases h : p.txid = "" ∨ p.rollbacked = true ∨ p.committed = true
  · simp [h]
  · simp [h]
    cases env.rollbackExec p.txid <;> simp

/-! ## Loop-level lemmas -/

lemma prepareLoop_nil {Ctx : Type} (ctx : Ctx) (i : Nat) :
    prepareLoop ctx i ([] : List (Env Ctx × Participant)) = ([], none, []) := rfl

lemma prepareLoop_cons_ok {Ctx : Type} (ctx : Ctx) (i : Nat) (env : Env Ctx)
    (p p' : Participant) (tr : List Event)
    (h : p.prepare env ctx = (p', none, tr)) (rest : List (Env Ctx × Participant)) :
    prepareLoop ctx i ((env, p) :: rest) =
      ((env, p') :: (prepareLoop ctx (i + 1) rest).1,
        (prepareLoop ctx (i + 1) rest).2.1,
        tr.map (fun ev => (i, ev)) ++ (prepareLoop ctx (i + 1) rest).2.2) := by
  simp [prepareLoop, h]

lemma prepareLoop_cons_fail {Ctx : Type} (ctx : Ctx) (i : Nat) (env : Env Ctx)
    (p p' : Participant) (e : String) (tr : List Event)
    (h : p.prepare env ctx = (p', some e, tr)) (rest : List (Env Ctx × Participant)) :
    prepareLoop ctx i ((env, p) :: rest) =
      ((env, p') :: rest, some e, tr.map (fun ev => (i, ev))) := by
  simp [prepareLoop, h]

lemma prepareLoop_ok_append {Ctx : Type} (ctx : Ctx) (envs : List (Env Ctx))
    (rest : List (Env Ctx × Participant)) (i : Nat)
    (h : ∀ env ∈ envs, prepOk ctx env) :
    prepareLoop ctx i (initPairs envs ++ rest) =
      ((envs.map (fun env => (env, pState env))) ++
          (prepareLoop ctx (i + envs.length) rest).1,
        (prepareLoop ctx (i + envs.length) rest).2.1,
        prepTraceOf i envs ++ (prepareLoop ctx (i + envs.length) rest).2.2) := by
  induction envs generalizing i with
  | nil => simp [initPairs, prepTraceOf]
  | cons env tail ih =>
    have hok := prepare_ok env ctx (h env (by simp))
    have htail : ∀ e ∈ tail, prepOk ctx e := fun e he => h e (by simp [he])
    rw [initPairs, List.map_cons, List.cons_append,
      prepareLoop_cons_ok ctx i env NewParticipant (pState env) _ hok,
      show (List.map (fun env => (env, NewParticipant)) tail : List (Env Ctx × Participant)) ++ rest = initPairs tail ++ rest from rfl,
      ih (i + 1) htail]
    simp [prepTraceOf, Nat.add_comm, Nat.add_assoc, Nat.add_left_comm]

lemma prepareLoop_all_ok {Ctx : Type} (ctx : Ctx) (envs : List (Env Ctx)) (i : Nat)
    (h : ∀ env ∈ envs, prepOk ctx env) :
    prepareLoop ctx i (initPairs envs) =
      (envs.map (fun env => (env, pState env)), none, prepTraceOf i envs) := by
  have := prepareLoop_ok_append ctx envs [] i h
  simpa [prepareLoop_nil] using this

lemma commitLoop_nil {Ctx : Type} (i : Nat) :
    commitLoop i ([] : List (Env Ctx × Participant)) = ([], none, []) := rfl

lemma commitLoop_cons_ok {Ctx : Type} (i : Nat) (env : Env Ctx)
    (p p' : Participant) (tr : List Event)
    (h : p.commit env = (p', none, tr)) (rest : List (Env Ctx × Participant)) :
    commitLoop i ((env, p) :: rest) =
      ((env, p') :: (commitLoop (i + 1) rest).1,
        (commitLoop (i + 1) rest).2.1,
        tr.map (fun ev => (i, ev)) ++ (commitLoop (i + 1) rest).2.2) := by
  simp [commitLoop, h]

lemma commitLoop_cons_fail {Ctx : Type} (i : Nat) (env : Env Ctx)
    (p p' : Participant) (e : String) (tr : List Event)
    (h : p.commit env = (p', some e, tr)) (rest : List (Env Ctx × Participant)) :
    commitLoop i ((env, p) :: rest) =
      ((env, p') :: rest, some e,
        tr.map (fun ev => (i, ev)) ++ [(i, .logCall ("commit failed: " ++ e))]) := by
  simp [commitLoop, h]

lemma commitLoop_ok_append {Ctx : Type} (envs : List (Env Ctx))
    (rest : List (Env Ctx × Participant)) (i : Nat)
    (h : ∀ env ∈ envs, commitOk env) :
    commitLoop i ((envs.map (fun env => (env, pState env))) ++ rest) =
      ((envs.map (fun env => (env, cState env))) ++
          (commitLoop (i + envs.length) rest).1,
        (commitLoop (i + envs.length) rest).2.1,
        commitSeq i envs ++ (commitLoop (i + envs.length) rest).2.2) := by
  induction envs generalizing i with
  | nil => simp [commitSeq]
  | cons env tail ih =>
    have hok := commit_ok_pState env (h env (by simp))
    have htail : ∀ e ∈ tail, commitOk e := fun e he => h e (by simp [he])
    rw [List.map_cons, List.cons_append,
      commitLoop_cons_ok i env (pState env) (cState env) _ hok,
      ih (i + 1) htail]
    simp [commitSeq, Nat.add_comm, Nat.add_assoc, Nat.add_left_comm]

lemma commitLoop_all_ok {Ctx : Type} (envs : List (Env Ctx)) (i : Nat)
    (h : ∀ env ∈ envs, commitOk env) :
    commitLoop i (envs.map (fun env => (env, pState env))) =
      (envs.map (fun env => (env, cState env)), none, commitSeq i envs) := by
  have := commitLoop_ok_append envs [] i h
  simpa [commitLoop_nil] using this

lemma rollbackAll_states {Ctx : Type} (i : Nat)
    (l : List (Env Ctx × Participant)) :
    (rollbackAll i l).1 = l.map (fun x => (x.1, (x.2.rollback x.1).1)) := by
  induction l generalizing i with
  | nil => rfl
  | cons x rest ih =>
    obtain ⟨env, p⟩ := x
    simp only [rollbackAll]
    rcases h : p.rollback env with ⟨p', r, tr⟩
    simp [h, ih (i + 1)]

lemma rollbackAll_trace {Ctx : Type} (i : Nat)
    (l : List (Env Ctx × Participant)) :
    (rollbackAll i l).2 = rbTraceOf i l := by
  induction l generalizing i with
  | nil => rfl
  | cons x rest ih =>
    obtain ⟨env, p⟩ := x
    simp only [rollbackAll, rbTraceOf, rbEvents]
    rcases h : p.rollback env with ⟨p', r, tr⟩
    cases r <;> simp [h, ih (i + 1)]

/-! ## Trace-shape lemmas -/

lemma phase1_no_commit {x : Nat × Event} (h : isPhase1Ev x.2 = true) :
    isCommitCall x = false := by
  rcases x with ⟨i, ev⟩
  cases ev <;> simp_all [isPhase1Ev, isCommitCall]

lemma phase1_not_enter {x : Nat × Event} (h : isPhase1Ev x.2 = true) :
    x.2 ≠ Event.rollbackEnter := by
  rcases x with ⟨i, ev⟩
  cases ev <;> simp_all [isPhase1Ev]

lemma phase2_not_enter {x : Nat × Event} (h : isPhase2Ev x.2 = true) :
    x.2 ≠ Event.rollbackEnter := by
  rcases x with ⟨i, ev⟩
  cases ev <;> simp_all [isPhase2Ev]

lemma rbPass_no_commit {x : Nat × Event} (h : isRbPassEv x.2 = true) :
    isCommitCall x = false := by
  rcases x with ⟨i, ev⟩
  cases ev <;> simp_all [isRbPassEv, isCommitCall]

lemma rbPass_no_work {x : Nat × Event} (h : isRbPassEv x.2 = true) :
    x.2 ≠ Event.workCall := by
  rcases x with ⟨i, ev⟩
  cases ev <;> simp_all [isRbPassEv]

lemma filter_commit_eq_nil {tr : List (Nat × Event)}
    (h : ∀ x ∈ tr, isCommitCall x = false) : tr.filter isCommitCall = [] := by
  rw [List.filter_eq_nil_iff]
  intro a ha
  simp [h a ha]

lemma enterTags_eq_nil {tr : List (Nat × Event)}
    (h : ∀ x ∈ tr, x.2 ≠ Event.rollbackEnter) : rollbackEnterTags tr = [] := by
  rw [rollbackEnterTags, List.filterMap_eq_nil_iff]
  intro x hx
  rcases x with ⟨i, ev⟩
  have hne := h (i, ev) hx
  cases ev <;> simp_all

lemma enterTags_append (a b : List (Nat × Event)) :
    rollbackEnterTags (a ++ b) = rollbackEnterTags a ++ rollbackEnterTags b := by
  simp [rollbackEnterTags, List.filterMap_append]

lemma prepTraceOf_events {Ctx : Type} (i : Nat) (envs : List (Env Ctx)) :
    ∀ x ∈ prepTraceOf i envs, isPhase1Ev x.2 = true := by
  induction envs generalizing i with
  | nil => simp [prepTraceOf]
  | cons env tail ih =>
    intro x hx
    simp only [prepTraceOf, List.mem_cons] at hx
    rcases hx with h | h | h | h | h
    · simp [h, isPhase1Ev]
    · simp [h, isPhase1Ev]
    · simp [h, isPhase1Ev]
    · simp [h, isPhase1Ev]
    · exact ih (i + 1) x h

lemma prepTraceOf_tag_lt {Ctx : Type} (i : Nat) (envs : List (Env Ctx)) :
    ∀ x ∈ prepTraceOf i envs, x.1 < i + envs.length := by
  induction envs generalizing i with
  | nil => simp [prepTraceOf]
  | cons env tail ih =>
    intro x hx
    simp only [prepTraceOf, List.mem_cons] at hx
    rcases hx with h | h | h | h | h
    · simp [h]
    · simp [h]
    · simp [h]
    · simp [h]
    · have := ih (i + 1) x h
      simp only [List.length_cons]
      omega

lemma commitSeq_events {Ctx : Type} (i : Nat) (envs : List (Env Ctx)) :
    ∀ x ∈ commitSeq i envs, isPhase2Ev x.2 = true ∧ isCommitCall x = true := by
  induction envs generalizing i with
  | nil => simp [commitSeq]
  | cons env tail ih =>
    intro x hx
    simp only [commitSeq, List.mem_cons] at hx
    rcases hx with h | h
    · simp [h, isPhase2Ev, isCommitCall]
    · exact ih (i + 1) x h

lemma filter_commit_commitSeq {Ctx : Type} (i : Nat) (envs : List (Env Ctx)) :
    (commitSeq i envs).filter isCommitCall = commitSeq i envs := by
  rw [List.filter_eq_self]
  intro x hx
  exact (commitSeq_events i envs x hx).2

lemma prepareLoop_events {Ctx : Type} (ctx : Ctx) (i : Nat)
    (l : List (Env Ctx × Participant)) :
    ∀ x ∈ (prepareLoop ctx i l).2.2, isPhase1Ev x.2 = true := by
  induction l generalizing i with
  | nil => simp [prepareLoop_nil]
  | cons hd rest ih =>
    obtain ⟨env, p⟩ := hd
    rcases hp : p.prepare env ctx with ⟨p', r, tr⟩
    cases r with
    | some e =>
      rw [prepareLoop_cons_fail ctx i env p p' e tr hp]
      intro x hx
      simp only [List.mem_map] at hx
      obtain ⟨ev, hev, hx⟩ := hx
      have := prepare_events env ctx p ev (by rw [hp] at *; simpa using hev)
      rw [← hx]
      exact this
    | none =>
      rw [prepareLoop_cons_ok ctx i env p p' tr hp]
      intro x hx
      simp only [List.mem_append, List.mem_map] at hx
      rcases hx with ⟨ev, hev, hx⟩ | hx
      · have := prepare_events env ctx p ev (by rw [hp] at *; simpa using hev)
        rw [← hx]
        exact this
      · exact ih (i + 1) x hx

lemma commitLoop_events {Ctx : Type} (i : Nat)
    (l : List (Env Ctx × Participant)) :
    ∀ x ∈ (commitLoop i l).2.2, isPhase2Ev x.2 = true := by
  induction l generalizing i with
  | nil => simp [commitLoop_nil]
  | cons hd rest ih =>
    obtain ⟨env, p⟩ := hd
    rcases hp : p.commit env with ⟨p', r, tr⟩
    have htr : tr = [Event.commitExecCall p.txid] := by
      have := commit_trace env p
      rw [hp] at this
      simpa using this
    cases r with
    | some e =>
      rw [commitLoop_cons_fail i env p p' e tr hp, htr]
      intro x hx
      simp only [List.mem_append, List.mem_map, List.mem_singleton,
        List.mem_cons] at hx
      rcases hx with ⟨ev, hev, rfl⟩ | hx
      · have hev2 : ev = Event.commitExecCall p.txid := by simpa using hev
        simp [hev2, isPhase2Ev]
      · have hx2 : x = (i, Event.logCall ("commit failed: " ++ e)) := by
          simpa using hx
        simp [hx2, isPhase2Ev]
    | none =>
      rw [commitLoop_cons_ok i env p p' tr hp, htr]
      intro x hx
      simp only [List.mem_append, List.mem_map, List.mem_singleton] at hx
      rcases hx with ⟨ev, hev, rfl⟩ | hx
      · have hev2 : ev = Event.commitExecCall p.txid := by simpa using hev
        simp [hev2, isPhase2Ev]
      · exact ih (i + 1) x hx

/-! ## Safety-net-pass trace lemmas -/

lemma rbEvents_events {Ctx : Type} (i : Nat) (env : Env Ctx) (p : Participant) :
    ∀ x ∈ rbEvents i env p, isRbPassEv x.2 = true := by
  unfold rbEvents
  have htr := rollback_events env p
  rcases h : p.rollback env with ⟨p', r, tr⟩
  rw [h] at htr
  simp only at htr
  cases r with
  | some e =>
    intro x hx
    simp only [List.mem_append, List.mem_map, List.mem_singleton] at hx
    rcases hx with ⟨ev, hev, rfl⟩ | hx
    · rcases htr ev hev with h2 | h2 <;> simp [h2, isRbPassEv]
    · simp [hx, isRbPassEv]
  | none =>
    intro x hx
    simp only [List.mem_map] at hx
    obtain ⟨ev, hev, rfl⟩ := hx
    rcases htr ev hev with h2 | h2 <;> simp [h2, isRbPassEv]

lemma rbEvents_tag {Ctx : Type} (i : Nat) (env : Env Ctx) (p : Participant) :
    ∀ x ∈ rbEvents i env p, x.1 = i := by
  unfold rbEvents
  rcases h : p.rollback env with ⟨p', r, tr⟩
  cases r with
  | some e =>
    intro x hx
    simp only [List.mem_append, List.mem_map, List.mem_singleton] at hx
    rcases hx with ⟨ev, hev, rfl⟩ | hx
    · rfl
    · simp [hx]
  | none =>
    intro x hx
    simp only [List.mem_map] at hx
    obtain ⟨ev, hev, rfl⟩ := hx
    rfl

lemma rbEvents_enterTags {Ctx : Type} (i : Nat) (env : Env Ctx)
    (p : Participant) : rollbackEnterTags (rbEvents i env p) = [i] := by
  unfold rbEvents Participant.rollback
  by_cases hg : p.txid = "" ∨ p.rollbacked = true ∨ p.committed = true
  · simp [hg, rollbackEnterTags]
  · simp only [hg, if_false]
    cases env.rollbackExec p.txid <;> simp [rollbackEnterTags]

lemma rbTraceOf_events {Ctx : Type} (i : Nat)
    (l : List (Env Ctx × Participant)) :
    ∀ x ∈ rbTraceOf i l, isRbPassEv x.2 = true := by
  induction l generalizing i with
  | nil => simp [rbTraceOf]
  | cons hd rest ih =>
    obtain ⟨env, p⟩ := hd
    intro x hx
    simp only [rbTraceOf, List.mem_append] at hx
    rcases hx with hx | hx
    · exact rbEvents_events i env p x hx
    · exact ih (i + 1) x hx

lemma rbTraceOf_tag_ge {Ctx : Type} (i : Nat)
    (l : List (Env Ctx × Participant)) :
    ∀ x ∈ rbTraceOf i l, i ≤ x.1 := by
  induction l generalizing i with
  | nil => simp [rbTraceOf]
  | cons hd rest ih =>
    obtain ⟨env, p⟩ := hd
    intro x hx
    simp only [rbTraceOf, List.mem_append] at hx
    rcases hx with hx | hx
    · exact le_of_eq (rbEvents_tag i env p x hx).symm
    · have := ih (i + 1) x hx
      omega

lemma rbTraceOf_enterTags {Ctx : Type} (i : Nat)
    (l : List (Env Ctx × Participant)) :
    rollbackEnterTags (rbTraceOf i l) = List.range' i l.length := by
  induction l generalizing i with
  | nil => simp [rbTraceOf, rollbackEnterTags]
  | cons hd rest ih =>
    obtain ⟨env, p⟩ := hd
    simp only [rbTraceOf, enterTags_append, rbEvents_enterTags, ih (i + 1),
      List.length_cons]
    rw [List.range'_succ]
    rfl

lemma rbTraceOf_append {Ctx : Type} (i : Nat)
    (l1 l2 : List (Env Ctx × Participant)) :
    rbTraceOf i (l1 ++ l2) = rbTraceOf i l1 ++ rbTraceOf (i + l1.length) l2 := by
  induction l1 generalizing i with
  | nil => simp [rbTraceOf]
  | cons hd rest ih =>
    obtain ⟨env, p⟩ := hd
    simp only [List.cons_append, rbTraceOf, List.append_eq, List.length_cons]
    rw [ih (i + 1), List.append_assoc]
    have harith : i + 1 + rest.length = i + (rest.length + 1) := by omega
    rw [harith]

lemma rbEvents_exec_mem {Ctx : Type} (i : Nat) (env : Env Ctx)
    (p : Participant) (h1 : p.txid ≠ "") (h2 : p.rollbacked = false)
    (h3 : p.committed = false) :
    (i, Event.rollbackExecCall p.txid) ∈ rbEvents i env p := by
  unfold rbEvents
  rw [rollback_active env p h1 h2 h3]
  cases env.rollbackExec p.txid <;> simp

lemma rbTraceOf_exec_mem {Ctx : Type} (l : List (Env Ctx × Participant))
    (i j : Nat) (env : Env Ctx) (p : Participant)
    (hj : l.get? j = some (env, p)) (h1 : p.txid ≠ "")
    (h2 : p.rollbacked = false) (h3 : p.committed = false) :
    (i + j, Event.rollbackExecCall p.txid) ∈ rbTraceOf i l := by
  induction l generalizing i j with
  | nil => simp at hj
  | cons hd rest ih =>
    cases j with
    | zero =>
      have hhd : hd = (env, p) := by simpa using hj
      subst hhd
      simp only [rbTraceOf, List.mem_append]
      exact Or.inl (by simpa using rbEvents_exec_mem i env p h1 h2 h3)
    | succ j' =>
      have hj' : rest.get? j' = some (env, p) := by simpa using hj
      have := ih (i + 1) j' hj'
      obtain ⟨e2, p2⟩ := hd
      simp only [rbTraceOf, List.mem_append]
      right
      have harith : i + (j' + 1) = i + 1 + j' := by omega
      rw [harith]
      exact this

lemma rbEvents_guarded {Ctx : Type} (i : Nat) (env : Env Ctx) (p : Participant)
    (h : p.txid = "" ∨ p.rollbacked = true ∨ p.committed = true) :
    rbEvents i env p = [(i, Event.rollbackEnter)] := by
  unfold rbEvents
  rw [rollback_noop env p h]
  rfl

lemma rbEvents_active {Ctx : Type} (i : Nat) (env : Env Ctx) (p : Participant)
    (h1 : p.txid ≠ "") (h2 : p.rollbacked = false) (h3 : p.committed = false) :
    rbEvents i env p =
      match env.rollbackExec p.txid with
      | some e =>
          [(i, Event.rollbackEnter), (i, Event.rollbackExecCall p.txid),
            (i, Event.logCall ("rollback failed: " ++ e))]
      | none =>
          [(i, Event.rollbackEnter), (i, Event.rollbackExecCall p.txid)] := by
  unfold rbEvents
  rw [rollback_active env p h1 h2 h3]
  cases env.rollbackExec p.txid <;> rfl

lemma rbTraceOf_exec_inv {Ctx : Type} (l : List (Env Ctx × Participant))
    (i j : Nat) (g : String)
    (hmem : (j, Event.rollbackExecCall g) ∈ rbTraceOf i l) :
    ∃ env p, l.get? (j - i) = some (env, p) ∧ p.txid = g ∧
      ∀ e, env.rollbackExec g = some e →
        (j, Event.logCall ("rollback failed: " ++ e)) ∈ rbTraceOf i l := by
  induction l generalizing i with
  | nil => simp [rbTraceOf] at hmem
  | cons hd rest ih =>
    obtain ⟨env, p⟩ := hd
    simp only [rbTraceOf, List.mem_append] at hmem
    rcases hmem with hm | hm
    · have htag := rbEvents_tag i env p _ hm
      simp only at htag
      subst htag
      by_cases hg : p.txid = "" ∨ p.rollbacked = true ∨ p.committed = true
      · rw [rbEvents_guarded j env p hg] at hm
        simp at hm
      · push_neg at hg
        obtain ⟨h1, h2, h3⟩ := hg
        have h2' : p.rollbacked = false := by
          cases hb : p.rollbacked
          · rfl
          · exact absurd hb h2
        have h3' : p.committed = false := by
          cases hb : p.committed
          · rfl
          · exact absurd hb h3
        have hact := rbEvents_active j env p h1 h2' h3'
        have hgtx : p.txid = g := by
          rw [hact] at hm
          cases hre : env.rollbackExec p.txid <;> rw [hre] at hm <;>
            simp at hm <;> tauto
        refine ⟨env, p, by simp, hgtx, ?_⟩
        intro e he
        rw [← hgtx] at he
        simp only [rbTraceOf, List.mem_append]
        left
        rw [rbEvents_active j env p h1 h2' h3', he]
        simp [hgtx]
    · have hge := rbTraceOf_tag_ge (i + 1) rest _ hm
      simp only at hge
      obtain ⟨env2, p2, hget, htx, hlog⟩ := ih (i + 1) hm
      refine ⟨env2, p2, ?_, htx, ?_⟩
      · have : j - i = (j - (i + 1)) + 1 := by omega
        rw [this]
        simpa using hget
      · intro e he
        simp only [rbTraceOf, List.mem_append]
        exact Or.inr (hlog e he)

/-! ## Preservation and congruence lemmas -/

lemma prepareLoop_fst {Ctx : Type} (ctx : Ctx) (i : Nat)
    (l : List (Env Ctx × Participant)) :
    (prepareLoop ctx i l).1.map Prod.fst = l.map Prod.fst := by
  induction l generalizing i with
  | nil => rfl
  | cons hd rest ih =>
    obtain ⟨env, p⟩ := hd
    rcases hp : p.prepare env ctx with ⟨p', r, tr⟩
    cases r with
    | some e =>
      rw [prepareLoop_cons_fail ctx i env p p' e tr hp]
      simp
    | none =>
      rw [prepareLoop_cons_ok ctx i env p p' tr hp]
      simp [ih (i + 1)]

lemma commitLoop_fst {Ctx : Type} (i : Nat)
    (l : List (Env Ctx × Participant)) :
    (commitLoop i l).1.map Prod.fst = l.map Prod.fst := by
  induction l generalizing i with
  | nil => rfl
  | cons hd rest ih =>
    obtain ⟨env, p⟩ := hd
    rcases hp : p.commit env with ⟨p', r, tr⟩
    cases r with
    | some e =>
      rw [commitLoop_cons_fail i env p p' e tr hp]
      simp
    | none =>
      rw [commitLoop_cons_ok i env p p' tr hp]
      simp [ih (i + 1)]

lemma prepareLoop_length {Ctx : Type} (ctx : Ctx) (i : Nat)
    (l : List (Env Ctx × Participant)) :
    (prepareLoop ctx i l).1.length = l.length := by
  have := congrArg List.length (prepareLoop_fst ctx i l)
  simpa using this

lemma commitLoop_length {Ctx : Type} (i : Nat)
    (l : List (Env Ctx × Participant)) :
    (commitLoop i l).1.length = l.length := by
  have := congrArg List.length (commitLoop_fst i l)
  simpa using this

lemma prepare_ctx_congr {Ctx : Type} (env : Env Ctx) (p : Participant)
    (ctx1 ctx2 : Ctx)
    (h1 : env.beginTx ctx1 = env.beginTx ctx2)
    (h2 : env.work ctx1 = env.work ctx2)
    (h3 : ∀ g, env.prepareExec ctx1 g = env.prepareExec ctx2 g) :
    p.prepare env ctx1 = p.prepare env ctx2 := by
  unfold Participant.prepare
  rw [h1, h2, h3]

lemma prepareLoop_ctx_congr {Ctx : Type} (ctx1 ctx2 : Ctx) (i : Nat)
    (l : List (Env Ctx × Participant))
    (h : ∀ x ∈ l, x.1.beginTx ctx1 = x.1.beginTx ctx2 ∧
      x.1.work ctx1 = x.1.work ctx2 ∧
      ∀ g, x.1.prepareExec ctx1 g = x.1.prepareExec ctx2 g) :
    prepareLoop ctx1 i l = prepareLoop ctx2 i l := by
  induction l generalizing i with
  | nil => rfl
  | cons hd rest ih =>
    obtain ⟨env, p⟩ := hd
    have hh := h (env, p) (by simp)
    have hp := prepare_ctx_congr env p ctx1 ctx2 hh.1 hh.2.1 hh.2.2
    have hrest : ∀ x ∈ rest, x.1.beginTx ctx1 = x.1.beginTx ctx2 ∧
        x.1.work ctx1 = x.1.work ctx2 ∧
        ∀ g, x.1.prepareExec ctx1 g = x.1.prepareExec ctx2 g :=
      fun x hx => h x (by simp [hx])
    simp only [prepareLoop, hp, ih (i + 1) hrest]

lemma stripRb_env {Ctx : Type} (env1 env2 : Env Ctx) (p1 p2 q : Participant)
    (h : stripRb (env1, p1) = stripRb (env2, p2)) :
    stripRb (env1, q) = stripRb (env2, q) := by
  unfold stripRb at h ⊢
  simp only [Prod.mk.injEq] at h ⊢
  exact ⟨h.1, h.2.1, h.2.2.1, h.2.2.2.1, h.2.2.2.2.1, trivial⟩

lemma prepare_stripRb_congr {Ctx : Type} (env1 env2 : Env Ctx)
    (p1 p2 : Participant) (ctx : Ctx)
    (h : stripRb (env1, p1) = stripRb (env2, p2)) :
    p1.prepare env1 ctx = p2.prepare env2 ctx := by
  unfold stripRb at h
  simp only [Prod.mk.injEq] at h
  obtain ⟨hb, hw, hpe, hc, hu, hp⟩ := h
  unfold Participant.prepare getPreparedGid
  rw [hb, hw, hpe, hu, hp]

lemma commit_stripRb_congr {Ctx : Type} (env1 env2 : Env Ctx)
    (p1 p2 : Participant)
    (h : stripRb (env1, p1) = stripRb (env2, p2)) :
    p1.commit env1 = p2.commit env2 := by
  unfold stripRb at h
  simp only [Prod.mk.injEq] at h
  obtain ⟨hb, hw, hpe, hc, hu, hp⟩ := h
  unfold Participant.commit
  rw [hc, hp]

lemma prepareLoop_stripRb {Ctx : Type} (ctx : Ctx) (i : Nat)
    (l1 l2 : List (Env Ctx × Participant))
    (h : l1.map stripRb = l2.map stripRb) :
    (prepareLoop ctx i l1).2 = (prepareLoop ctx i l2).2 ∧
      (prepareLoop ctx i l1).1.map stripRb =
        (prepareLoop ctx i l2).1.map stripRb := by
  induction l1 generalizing l2 i with
  | nil =>
    have : l2 = [] := by
      have := congrArg List.length h
      simpa using (List.length_eq_zero.mp (by simpa using this.symm))
    subst this
    exact ⟨rfl, rfl⟩
  | cons hd1 rest1 ih =>
    cases l2 with
    | nil => simp at h
    | cons hd2 rest2 =>
      simp only [List.map_cons, List.cons.injEq] at h
      obtain ⟨hhd, hrest⟩ := h
      obtain ⟨env1, p1⟩ := hd1
      obtain ⟨env2, p2⟩ := hd2
      have hprep := prepare_stripRb_congr env1 env2 p1 p2 ctx hhd
      rcases hp1 : p1.prepare env1 ctx with ⟨p', r, tr⟩
      have hp2 : p2.prepare env2 ctx = (p', r, tr) := by rw [← hprep, hp1]
      cases r with
      | some e =>
        rw [prepareLoop_cons_fail ctx i env1 p1 p' e tr hp1,
          prepareLoop_cons_fail ctx i env2 p2 p' e tr hp2]
        refine ⟨rfl, ?_⟩
        simp only [List.map_cons]
        rw [stripRb_env env1 env2 p1 p2 p' hhd, hrest]
      | none =>
        rw [prepareLoop_cons_ok ctx i env1 p1 p' tr hp1,
          prepareLoop_cons_ok ctx i env2 p2 p' tr hp2]
        obtain ⟨ih1, ih2⟩ := ih (i + 1) rest2 hrest
        constructor
        · simp only [Prod.mk.injEq]
          exact ⟨congrArg (fun x => x.1) ih1, by rw [congrArg (fun x => x.2) ih1]⟩
        · simp only [List.map_cons]
          rw [stripRb_env env1 env2 p1 p2 p' hhd, ih2]

lemma commitLoop_stripRb {Ctx : Type} (i : Nat)
    (l1 l2 : List (Env Ctx × Participant))
    (h : l1.map stripRb = l2.map stripRb) :
    (commitLoop i l1).2 = (commitLoop i l2).2 ∧
      (commitLoop i l1).1.map stripRb = (commitLoop i l2).1.map stripRb := by
  induction l1 generalizing l2 i with
  | nil =>
    have : l2 = [] := by
      have := congrArg List.length h
      simpa using (List.length_eq_zero.mp (by simpa using this.symm))
    subst this
    exact ⟨rfl, rfl⟩
  | cons hd1 rest1 ih =>
    cases l2 with
    | nil => simp at h
    | cons hd2 rest2 =>
      simp only [List.map_cons, List.cons.injEq] at h
      obtain ⟨hhd, hrest⟩ := h
      obtain ⟨env1, p1⟩ := hd1
      obtain ⟨env2, p2⟩ := hd2
      have hcom := commit_stripRb_congr env1 env2 p1 p2 hhd
      rcases hp1 : p1.commit env1 with ⟨p', r, tr⟩
      have hp2 : p2.commit env2 = (p', r, tr) := by rw [← hcom, hp1]
      cases r with
      | some e =>
        rw [commitLoop_cons_fail i env1 p1 p' e tr hp1,
          commitLoop_cons_fail i env2 p2 p' e tr hp2]
        refine ⟨rfl, ?_⟩
        simp only [List.map_cons]
        rw [stripRb_env env1 env2 p1 p2 p' hhd, hrest]
      | none =>
        rw [commitLoop_cons_ok i env1 p1 p' tr hp1,
          commitLoop_cons_ok i env2 p2 p' tr hp2]
        obtain ⟨ih1, ih2⟩ := ih (i + 1) rest2 hrest
        constructor
        · simp only [Prod.mk.injEq]
          exact ⟨congrArg (fun x => x.1) ih1, by rw [congrArg (fun x => x.2) ih1]⟩
        · simp only [List.map_cons]
          rw [stripRb_env env1 env2 p1 p2 p' hhd, ih2]

/-! ## Invariant lemmas for participant call sequences -/

lemma txid_inv_step {Ctx : Type} (env : Env Ctx) (p : Participant) (op : Op Ctx)
    (h : p.prepared = true ∨ p.rollbacked = true → p.txid ≠ "") :
    (runOp env p op).prepared = true ∨ (runOp env p op).rollbacked = true →
      (runOp env p op).txid ≠ "" := by
  cases op with
  | prepareOp ctx =>
    simp only [runOp]
    unfold Participant.prepare
    cases hb : env.beginTx ctx with
    | some e => simpa using h
    | none =>
      cases hw : env.work ctx with
      | some e => simpa using h
      | none =>
        cases hpe : env.prepareExec ctx (getPreparedGid env) with
        | some e => simp [getPreparedGid_ne_empty env]
        | none => simp [getPreparedGid_ne_empty env]
  | commitOp =>
    simp only [runOp]
    unfold Participant.commit
    cases hc : env.commitExec p.txid with
    | some e => simpa using h
    | none =>
      intro hflag
      refine h ?_
      simpa using hflag
  | rollbackOp =>
    simp only [runOp]
    unfold Participant.rollback
    by_cases hg : p.txid = "" ∨ p.rollbacked = true ∨ p.committed = true
    · simp only [if_pos hg]
      exact h
    · simp only [if_neg hg]
      push_neg at hg
      cases hre : env.rollbackExec p.txid with
      | some e => simpa using h
      | none =>
        intro _
        simpa using hg.1

lemma txid_inv_runOps {Ctx : Type} (env : Env Ctx) (ops : List (Op Ctx)) :
    ∀ p : Participant,
      (p.prepared = true ∨ p.rollbacked = true → p.txid ≠ "") →
      ((runOps env p ops).prepared = true ∨
        (runOps env p ops).rollbacked = true) →
      (runOps env p ops).txid ≠ "" := by
  induction ops with
  | nil => intro p h; exact h
  | cons op rest ih =>
    intro p h
    simp only [runOps]
    exact ih (runOp env p op) (txid_inv_step env p op h)

/-! ## Claim C10 -/

/-- C10: for the empty participant list, `Do` performs no backend
operation, invokes no work function, logs nothing (the event trace is
empty), and returns success. -/
theorem do_empty_list {Ctx : Type} (ctx : Ctx) :
    Do ctx ([] : List (Env Ctx × Participant)) = (none, [], []) := rfl

/-! ## Claim C9 -/

/-- C9: `commit()` performs no state-guard check: for every participant,
including one in state NotPrepared with an empty transaction identifier,
it unconditionally issues exactly one backend commit against the stored
identifier, and marks the participant Committed (with a success result)
whenever that backend call succeeds. -/
theorem commit_unguarded {Ctx : Type} (env : Env Ctx) (p : Participant) :
    (p.commit env).2.2 = [Event.commitExecCall p.txid] ∧
      (env.commitExec p.txid = none →
        (p.commit env).1 = { p with committed := true } ∧
          (p.commit env).2.1 = none) := by
  refine ⟨commit_trace env p, fun h => ?_⟩
  unfold Participant.commit
  rw [h]
  exact ⟨rfl, rfl⟩

/-- Witness for C9: on the all-success oracle, committing a fresh
participant (empty identifier, NotPrepared) issues `COMMIT PREPARED ''`
and marks it Committed. -/
theorem commit_unguarded_witness :
    (NewParticipant.commit envOkU).2.2 = [Event.commitExecCall ""] ∧
      (NewParticipant.commit envOkU).1 =
        { NewParticipant with committed := true } := by
  have h := commit_unguarded envOkU NewParticipant
  exact ⟨h.1, (h.2 rfl).1⟩

/-! ## Claim C8 -/

/-- C8: the caller-supplied context influences `Do` only through the
phase-1 backend steps (`BeginTx`, the work function, and the
`PREPARE TRANSACTION` statement): whenever two contexts make those steps
behave identically for every participant, the whole run — result, final
states and event trace — is identical.  Phase-2 commits and safety-net
rollbacks are issued without the context (`db.Exec`), so once phase 1 has
completed they cannot observe cancellation or expiry of the context. -/
theorem do_ctx_only_prepare {Ctx : Type} (ctx1 ctx2 : Ctx)
    (l : List (Env Ctx × Participant))
    (h : ∀ x ∈ l, x.1.beginTx ctx1 = x.1.beginTx ctx2 ∧
      x.1.work ctx1 = x.1.work ctx2 ∧
      ∀ g, x.1.prepareExec ctx1 g = x.1.prepareExec ctx2 g) :
    Do ctx1 l = Do ctx2 l := by
  unfold Do
  rw [prepareLoop_ctx_congr ctx1 ctx2 0 l h]

/-- Witness for C8: with context-insensitive oracles, a run under
`ctx = true` equals the run under `ctx = false`. -/
theorem do_ctx_only_prepare_witness :
    Do true [(envOkB, NewParticipant)] = Do false [(envOkB, NewParticipant)] := by
  refine do_ctx_only_prepare true false [(envOkB, NewParticipant)] ?_
  intro x hx
  simp only [List.mem_singleton] at hx
  subst hx
  exact ⟨rfl, rfl, fun g => rfl⟩

/-! ## Claim C4 -/

/-- C4 counterexample: run one `prepare` on the oracle whose
`PREPARE TRANSACTION` step fails.  The resulting participant is
NotPrepared (all flags false) yet its transaction identifier is non-empty
(`prepare` assigns `txid` before issuing the promotion statement), so the
claimed equivalence "identifier exists iff state is Prepared, Committed or
RolledBack" is false at this reachable state, and the claimed "stays
NotPrepared with no identifier assigned" after a failed promotion is false
as well. -/
theorem txid_invariant_cx :
    ¬ (((runOps envPromoteFailU NewParticipant [Op.prepareOp ()]).txid ≠ "") ↔
      ((runOps envPromoteFailU NewParticipant [Op.prepareOp ()]).prepared = true ∨
        (runOps envPromoteFailU NewParticipant [Op.prepareOp ()]).committed = true ∨
        (runOps envPromoteFailU NewParticipant [Op.prepareOp ()]).rollbacked = true)) := by
  decide

/-- C4 (amended): over every sequence of lifecycle calls from the initial
state, a participant in state Prepared or RolledBack always has a
non-empty transaction identifier; the converse direction of the claimed
equivalence does not hold, because a prepare whose promotion step fails
leaves the participant NotPrepared with the identifier already assigned
(see the counterexample). -/
theorem txid_nonempty_of_prepared_or_rollbacked {Ctx : Type} (env : Env Ctx)
    (ops : List (Op Ctx))
    (h : (runOps env NewParticipant ops).prepared = true ∨
      (runOps env NewParticipant ops).rollbacked = true) :
    (runOps env NewParticipant ops).txid ≠ "" := by
  refine txid_inv_runOps env ops NewParticipant ?_ h
  intro hflag
  rcases hflag with hflag | hflag <;> simp [NewParticipant] at hflag

/-- Witness for C4 (amended): one successful prepare yields a Prepared
participant with the non-empty identifier `"gosql2pc-u"`. -/
theorem txid_nonempty_witness :
    (runOps envOkU NewParticipant [Op.prepareOp ()]).txid ≠ "" :=
  txid_nonempty_of_prepared_or_rollbacked envOkU [Op.prepareOp ()]
    (by decide)

/-! ## Claim C6 -/

/-- C6 counterexample: the participant left NotPrepared by a failed
promotion step has a non-empty identifier, so `rollback()` on it does
issue a backend rollback call and (the backend call succeeding) changes
its state to RolledBack — contradicting the claimed guaranteed no-op for
every NotPrepared participant. -/
theorem rollback_noop_cx :
    ((runOps envPromoteFailU NewParticipant [Op.prepareOp ()]).prepared = false ∧
      (runOps envPromoteFailU NewParticipant [Op.prepareOp ()]).committed = false ∧
      (runOps envPromoteFailU NewParticipant [Op.prepareOp ()]).rollbacked = false) ∧
    ((runOps envPromoteFailU NewParticipant [Op.prepareOp ()]).rollback
        envPromoteFailU).2.2.countP isRbExecEv = 1 ∧
    ((runOps envPromoteFailU NewParticipant [Op.prepareOp ()]).rollback
        envPromoteFailU).1 ≠
      runOps envPromoteFailU NewParticipant [Op.prepareOp ()] := by
  decide

/-- C6 (amended): `rollback()` is a no-op — success, no backend call,
state unchanged — exactly when the stored identifier is empty or the
participant is already Committed or RolledBack.  From every other state
(Prepared, but also NotPrepared with the identifier assigned by a failed
promotion step) it issues the backend rollback against the stored
identifier and transitions to RolledBack when that call succeeds. -/
theorem rollback_guard_behavior {Ctx : Type} (env : Env Ctx) (p : Participant) :
    ((p.txid = "" ∨ p.rollbacked = true ∨ p.committed = true) →
      p.rollback env = (p, none, [Event.rollbackEnter])) ∧
    (p.txid ≠ "" → p.rollbacked = false → p.committed = false →
      (p.rollback env).2.2 =
        [Event.rollbackEnter, Event.rollbackExecCall p.txid] ∧
      (env.rollbackExec p.txid = none →
        (p.rollback env).1 = { p with rollbacked := true })) := by
  constructor
  · exact rollback_noop env p
  · intro h1 h2 h3
    rw [rollback_active env p h1 h2 h3]
    cases hre : env.rollbackExec p.txid <;> simp

/-- Witness for C6 (amended): the guard branch on a fresh participant and
the active branch on a prepared participant, on the all-success oracle. -/
theorem rollback_guard_behavior_witness :
    NewParticipant.rollback envOkU =
      (NewParticipant, none, [Event.rollbackEnter]) ∧
    ((pState envOkU).rollback envOkU).2.2 =
      [Event.rollbackEnter, Event.rollbackExecCall (pState envOkU).txid] ∧
    ((pState envOkU).rollback envOkU).1 =
      { pState envOkU with rollbacked := true } := by
  have h1 := (rollback_guard_behavior envOkU NewParticipant).1 (Or.inl rfl)
  have h2 := (rollback_guard_behavior envOkU (pState envOkU)).2
    (by decide) rfl rfl
  exact ⟨h1, h2.1, h2.2 rfl⟩

/-! ## Claim C7 -/

/-- C7 counterexample: on a backend whose rollback command fails, a
prepared participant's state is unchanged by the failed call, so calling
`rollback()` twice issues the backend rollback twice — more than the
claimed "at most one backend rollback call" for every state. -/
theorem rollback_twice_cx :
    ¬ ((((pState envRbFailU).rollback envRbFailU).2.2 ++
        (((pState envRbFailU).rollback envRbFailU).1.rollback
          envRbFailU).2.2).countP isRbExecEv ≤ 1) := by
  decide

/-- C7 (amended): calling `rollback()` twice in sequence makes at most one
backend rollback call provided the first call returns success (by the
no-op guard or by a successful backend rollback, which marks the
participant RolledBack); when the first call's backend rollback fails the
state is unchanged and the second call attempts the backend rollback
again. -/
theorem rollback_twice_at_most_one {Ctx : Type} (env : Env Ctx)
    (p : Participant) (h : (p.rollback env).2.1 = none) :
    (((p.rollback env).2.2 ++
      ((p.rollback env).1.rollback env).2.2).countP isRbExecEv) ≤ 1 := by
  by_cases hg : p.txid = "" ∨ p.rollbacked = true ∨ p.committed = true
  · rw [rollback_noop env p hg]
    simp only
    rw [rollback_noop env p hg]
    simp [List.countP_cons, isRbExecEv]
  · push_neg at hg
    obtain ⟨h1, h2, h3⟩ := hg
    have h2' : p.rollbacked = false := by
      cases hb : p.rollbacked
      · rfl
      · exact absurd hb h2
    have h3' : p.committed = false := by
      cases hb : p.committed
      · rfl
      · exact absurd hb h3
    have hact := rollback_active env p h1 h2' h3'
    rw [hact] at h ⊢
    cases hre : env.rollbackExec p.txid with
    | some e =>
      rw [hre] at h
      simp at h
    | none =>
      have hsecond :=
        rollback_noop env { p with rollbacked := true } (Or.inr (Or.inl rfl))
      simp [hsecond, List.countP_cons, List.countP_nil, isRbExecEv]

/-- Witness for C7 (amended): on the all-success oracle, rolling back a
prepared participant twice makes exactly one backend rollback call. -/
theorem rollback_twice_witness :
    (((pState envOkU).rollback envOkU).2.2 ++
      (((pState envOkU).rollback envOkU).1.rollback envOkU).2.2).countP
        isRbExecEv ≤ 1 :=
  rollback_twice_at_most_one envOkU (pState envOkU) (by decide)

/-! ## Full-run evaluation lemmas -/

lemma rollback_cState {Ctx : Type} (env : Env Ctx) :
    (cState env).rollback env = (cState env, none, [Event.rollbackEnter]) :=
  rollback_noop env (cState env) (Or.inr (Or.inr rfl))

lemma filter_commit_rbTraceOf {Ctx : Type} (i : Nat)
    (l : List (Env Ctx × Participant)) :
    (rbTraceOf i l).filter isCommitCall = [] :=
  filter_commit_eq_nil (fun x hx => rbPass_no_commit (rbTraceOf_events i l x hx))

lemma filter_commit_prepTraceOf {Ctx : Type} (i : Nat) (envs : List (Env Ctx)) :
    (prepTraceOf i envs).filter isCommitCall = [] :=
  filter_commit_eq_nil
    (fun x hx => phase1_no_commit (prepTraceOf_events i envs x hx))

lemma do_all_ok_eval {Ctx : Type} (ctx : Ctx) (envs : List (Env Ctx))
    (hp : ∀ env ∈ envs, prepOk ctx env) (hc : ∀ env ∈ envs, commitOk env) :
    Do ctx (initPairs envs) =
      (none, envs.map (fun env => cState env),
        prepTraceOf 0 envs ++ (commitSeq 0 envs ++
          rbTraceOf 0 (envs.map (fun env => (env, cState env))))) := by
  unfold Do
  rw [prepareLoop_all_ok ctx envs 0 hp]
  simp only [commitLoop_all_ok envs 0 hc, rollbackAll_states, rollbackAll_trace]
  rw [List.map_map]
  have hmap : envs.map ((Prod.snd ∘ fun x => (x.1, (x.2.rollback x.1).1)) ∘
      (fun env => (env, cState env))) = envs.map (fun env => cState env) := by
    refine List.map_congr_left ?_
    intro env _
    simp [Function.comp, rollback_cState env]
  rw [List.map_map, hmap, List.append_assoc]

/-! ## Claim C1 -/

/-- C1: for every non-empty list of participants, if every backend step of
every prepare succeeds and every backend commit succeeds, then `Do`
attempts the backend commit of every participant in list order (the
commit-call subtrace is exactly one `COMMIT PREPARED` per participant,
tagged 0,1,2,... in order), returns success, and leaves every participant
Committed. -/
theorem do_all_success_commits_all {Ctx : Type} (ctx : Ctx)
    (envs : List (Env Ctx)) (hne : envs ≠ [])
    (hp : ∀ env ∈ envs, prepOk ctx env) (hc : ∀ env ∈ envs, commitOk env) :
    (Do ctx (initPairs envs)).1 = none ∧
    (Do ctx (initPairs envs)).2.2.filter isCommitCall = commitSeq 0 envs ∧
    (Do ctx (initPairs envs)).2.1 = envs.map (fun env => cState env) ∧
    ∀ p ∈ (Do ctx (initPairs envs)).2.1, p.committed = true := by
  rw [do_all_ok_eval ctx envs hp hc]
  refine ⟨rfl, ?_, rfl, ?_⟩
  · simp only [List.filter_append, filter_commit_prepTraceOf,
      filter_commit_commitSeq, filter_commit_rbTraceOf]
    simp
  · intro p hp2
    simp only [List.mem_map] at hp2
    obtain ⟨env, _, rfl⟩ := hp2
    rfl

/-- Witness for C1: a single all-success participant commits and `Do`
returns success. -/
theorem do_all_success_commits_all_witness :
    (Do () (initPairs [envOkU])).1 = none ∧
    (Do () (initPairs [envOkU])).2.2.filter isCommitCall =
      commitSeq 0 [envOkU] ∧
    (Do () (initPairs [envOkU])).2.1 = [envOkU].map (fun env => cState env) ∧
    ∀ p ∈ (Do () (initPairs [envOkU])).2.1, p.committed = true :=
  do_all_success_commits_all () [envOkU] (by simp)
    (by
      intro env henv
      simp only [List.mem_singleton] at henv
      subst henv
      exact ⟨rfl, rfl, rfl⟩)
    (by
      intro env henv
      simp only [List.mem_singleton] at henv
      subst henv
      rfl)

lemma do_prepare_fail_eval {Ctx : Type} (ctx : Ctx) (pre post : List (Env Ctx))
    (bad : Env Ctx) (p' : Participant) (e : String) (tr : List Event)
    (hpre : ∀ env ∈ pre, prepOk ctx env)
    (hbad : NewParticipant.prepare bad ctx = (p', some e, tr)) :
    Do ctx (initPairs (pre ++ bad :: post)) =
      (some e,
        (rollbackAll 0 (pre.map (fun env => (env, pState env)) ++
          (bad, p') :: initPairs post)).1.map Prod.snd,
        (prepTraceOf 0 pre ++ tr.map (fun ev => (pre.length, ev))) ++
          rbTraceOf 0 (pre.map (fun env => (env, pState env)) ++
            (bad, p') :: initPairs post)) := by
  have hsplit : initPairs (pre ++ bad :: post) =
      initPairs pre ++ ((bad, NewParticipant) :: initPairs post) := by
    simp [initPairs]
  unfold Do
  rw [hsplit, prepareLoop_ok_append ctx pre _ 0 hpre,
    prepareLoop_cons_fail ctx (0 + pre.length) bad NewParticipant p' e tr hbad]
  simp only [rollbackAll_trace, Nat.zero_add, List.append_assoc]

/-! ## Claim C2 -/

/-- C2: if every prepare before participant k succeeds and participant k's
prepare fails with error `e` (k = `pre.length`, 0-based), then `Do`
returns exactly `e`, a backend rollback is invoked on every participant
before k, no participant is ever committed (no backend commit call occurs
at all), and the work functions of the participants after k are never
invoked (no work event is tagged with an index beyond k). -/
theorem do_prepare_failure_aborts {Ctx : Type} (ctx : Ctx)
    (pre post : List (Env Ctx)) (bad : Env Ctx) (e : String)
    (hpre : ∀ env ∈ pre, prepOk ctx env)
    (hbad : (NewParticipant.prepare bad ctx).2.1 = some e) :
    (Do ctx (initPairs (pre ++ bad :: post))).1 = some e ∧
    (∀ i env2, pre.get? i = some env2 →
      (i, Event.rollbackExecCall (getPreparedGid env2)) ∈
        (Do ctx (initPairs (pre ++ bad :: post))).2.2) ∧
    (∀ j g, (j, Event.commitExecCall g) ∉
      (Do ctx (initPairs (pre ++ bad :: post))).2.2) ∧
    (∀ j, pre.length < j →
      (j, Event.workCall) ∉ (Do ctx (initPairs (pre ++ bad :: post))).2.2) := by
  rcases hfull : NewParticipant.prepare bad ctx with ⟨p', r, tr⟩
  have hr : r = some e := by rw [hfull] at hbad; exact hbad
  subst hr
  have htr : ∀ ev ∈ tr, isPhase1Ev ev = true := by
    intro ev hev
    have := prepare_events bad ctx NewParticipant ev
    rw [hfull] at this
    exact this hev
  rw [do_prepare_fail_eval ctx pre post bad p' e tr hpre hfull]
  refine ⟨rfl, ?_, ?_, ?_⟩
  · intro i env2 hget
    have hlt : i < pre.length := by
      by_contra hh
      push_neg at hh
      rw [List.get?_eq_none.mpr hh] at hget
      exact Option.noConfusion hget
    have hget2 : (pre.map (fun env => (env, pState env)) ++
        (bad, p') :: initPairs post).get? i = some (env2, pState env2) := by
      rw [List.get?_append (by simpa using hlt), List.get?_map, hget]
      rfl
    have hmem := rbTraceOf_exec_mem _ 0 i (env2) (pState env2) hget2
      (by simpa using getPreparedGid_ne_empty env2) rfl rfl
    simp only [Nat.zero_add] at hmem
    simp only [List.mem_append]
    right
    exact hmem
  · intro j g hmem
    simp only [List.mem_append, List.mem_map] at hmem
    rcases hmem with (hx | ⟨ev, hev, hx⟩) | hx
    · have := phase1_no_commit (prepTraceOf_events 0 pre _ hx)
      simp [isCommitCall] at this
    · have hev2 : ev = Event.commitExecCall g := by
        have := congrArg Prod.snd hx
        simpa using this
      have := phase1_no_commit (x := (j, Event.commitExecCall g))
        (by rw [← hev2]; simpa using htr ev hev)
      simp [isCommitCall] at this
    · have := rbPass_no_commit (rbTraceOf_events 0 _ _ hx)
      simp [isCommitCall] at this
  · intro j hj hmem
    simp only [List.mem_append, List.mem_map] at hmem
    rcases hmem with (hx | ⟨ev, hev, hx⟩) | hx
    · have := prepTraceOf_tag_lt 0 pre _ hx
      simp only [Nat.zero_add] at this
      omega
    · have := congrArg Prod.fst hx
      simp only at this
      omega
    · have := rbPass_no_work (rbTraceOf_events 0 _ _ hx)
      simp at this

/-- Witness for C2: participant 0 succeeds, participant 1's promotion step
fails with "boom", participant 2 exists after it; `Do` returns "boom",
participant 0 gets a backend rollback, and participant 2's work function
never runs. -/
theorem do_prepare_failure_aborts_witness :
    (Do () (initPairs ([envOkU] ++ envPromoteFailU :: [envOkU]))).1 =
      some "boom" ∧
    (0, Event.rollbackExecCall (getPreparedGid envOkU)) ∈
      (Do () (initPairs ([envOkU] ++ envPromoteFailU :: [envOkU]))).2.2 ∧
    (2, Event.workCall) ∉
      (Do () (initPairs ([envOkU] ++ envPromoteFailU :: [envOkU]))).2.2 := by
  have h := do_prepare_failure_aborts () [envOkU] [envOkU] envPromoteFailU
    "boom"
    (by
      intro env henv
      simp only [List.mem_singleton] at henv
      subst henv
      exact ⟨rfl, rfl, rfl⟩)
    rfl
  exact ⟨h.1, h.2.1 0 envOkU rfl, h.2.2.2 2 (by decide)⟩

/-! ## Claim C3 -/

lemma commit_fail_pState {Ctx : Type} (env : Env Ctx) (e : String)
    (h : env.commitExec (getPreparedGid env) = some e) :
    (pState env).commit env =
      (pState env, some e, [Event.commitExecCall (getPreparedGid env)]) := by
  unfold Participant.commit pState
  simp [h]

lemma rbTraceOf_committed {Ctx : Type} (i : Nat) (envs : List (Env Ctx)) :
    rbTraceOf i (envs.map (fun env => (env, cState env))) =
      (List.range' i envs.length).map (fun j => (j, Event.rollbackEnter)) := by
  induction envs generalizing i with
  | nil => simp [rbTraceOf]
  | cons env rest ih =>
    simp only [List.map_cons, rbTraceOf,
      rbEvents_guarded i env (cState env) (Or.inr (Or.inr rfl)), ih (i + 1),
      List.length_cons]
    rw [List.range'_succ]
    simp

lemma do_commit_fail_eval {Ctx : Type} (ctx : Ctx) (pre post : List (Env Ctx))
    (bad : Env Ctx) (e : String)
    (hpre : ∀ env ∈ pre, prepOk ctx env) (hbadp : prepOk ctx bad)
    (hpost : ∀ env ∈ post, prepOk ctx env)
    (hcpre : ∀ env ∈ pre, commitOk env)
    (hbadc : bad.commitExec (getPreparedGid bad) = some e) :
    Do ctx (initPairs (pre ++ bad :: post)) =
      (some ("commit failed: " ++ e),
        (rollbackAll 0 (pre.map (fun env => (env, cState env)) ++
          (bad, pState bad) ::
            post.map (fun env => (env, pState env)))).1.map Prod.snd,
        prepTraceOf 0 (pre ++ bad :: post) ++
          ((commitSeq 0 pre ++
            ((pre.length, Event.commitExecCall (getPreparedGid bad)) ::
              (pre.length, Event.logCall ("commit failed: " ++ e)) :: [])) ++
            rbTraceOf 0 (pre.map (fun env => (env, cState env)) ++
              (bad, pState bad) ::
                post.map (fun env => (env, pState env))))) := by
  have hall : ∀ env ∈ pre ++ bad :: post, prepOk ctx env := by
    intro env henv
    rcases List.mem_append.mp henv with h | h
    · exact hpre env h
    · rcases List.mem_cons.mp h with h | h
      · subst h; exact hbadp
      · exact hpost env h
  have hmapsplit : (pre ++ bad :: post).map (fun env => (env, pState env)) =
      pre.map (fun env => (env, pState env)) ++ (bad, pState bad) ::
        post.map (fun env => (env, pState env)) := by simp
  have hP : prepareLoop ctx 0 (initPairs (pre ++ bad :: post)) =
      (pre.map (fun env => (env, pState env)) ++ (bad, pState bad) ::
        post.map (fun env => (env, pState env)), none,
        prepTraceOf 0 (pre ++ bad :: post)) := by
    rw [prepareLoop_all_ok ctx _ 0 hall, hmapsplit]
  have hC : commitLoop 0 (pre.map (fun env => (env, pState env)) ++
      (bad, pState bad) :: post.map (fun env => (env, pState env))) =
      (pre.map (fun env => (env, cState env)) ++ (bad, pState bad) ::
        post.map (fun env => (env, pState env)), some e,
        commitSeq 0 pre ++
          ((pre.length, Event.commitExecCall (getPreparedGid bad)) ::
            (pre.length, Event.logCall ("commit failed: " ++ e)) :: [])) := by
    rw [commitLoop_ok_append pre _ 0 hcpre,
      commitLoop_cons_fail (0 + pre.length) bad (pState bad) (pState bad) e _
        (commit_fail_pState bad e hbadc)]
    simp [Nat.zero_add]
  simp only [Do, hP, hC, rollbackAll_trace]
  simp [List.append_assoc]

lemma phase1_not_rbExec {x : Nat × Event} (h : isPhase1Ev x.2 = true) :
    ∀ g, x.2 ≠ Event.rollbackExecCall g := by
  rcases x with ⟨i, ev⟩
  cases ev <;> simp_all [isPhase1Ev]

lemma commitSeq_tag_lt {Ctx : Type} (i : Nat) (envs : List (Env Ctx)) :
    ∀ x ∈ commitSeq i envs, x.1 < i + envs.length := by
  induction envs generalizing i with
  | nil => simp [commitSeq]
  | cons env tail ih =>
    intro x hx
    simp only [commitSeq, List.mem_cons] at hx
    rcases hx with h | h
    · simp [h]
    · have := ih (i + 1) x h
      simp only [List.length_cons]
      omega

/-- C3 (amended): with every prepare succeeding, every commit before
participant k succeeding and participant k's backend commit failing with
`e` (k = `pre.length`, 0-based): `Do` returns the wrapped error
`"commit failed: " ++ e`; participants before k remain Committed and the
safety-net pass never issues a backend rollback at their indices (a no-op
for them); no backend commit is attempted past k; and — the corrected part
of the claim — participant k does not stay Prepared when the safety net's
backend rollback succeeds: the deferred pass rolls it back, leaving it
RolledBack. -/
theorem do_commit_failure_behavior {Ctx : Type} (ctx : Ctx)
    (pre post : List (Env Ctx)) (bad : Env Ctx) (e : String)
    (hpre : ∀ env ∈ pre, prepOk ctx env) (hbadp : prepOk ctx bad)
    (hpost : ∀ env ∈ post, prepOk ctx env)
    (hcpre : ∀ env ∈ pre, commitOk env)
    (hbadc : bad.commitExec (getPreparedGid bad) = some e) :
    (Do ctx (initPairs (pre ++ bad :: post))).1 =
      some ("commit failed: " ++ e) ∧
    (Do ctx (initPairs (pre ++ bad :: post))).2.1 =
      pre.map (fun env => cState env) ++
        ((pState bad).rollback bad).1 ::
          post.map (fun env => ((pState env).rollback env).1) ∧
    (∀ i g, i < pre.length → (i, Event.rollbackExecCall g) ∉
      (Do ctx (initPairs (pre ++ bad :: post))).2.2) ∧
    (∀ j g, pre.length < j → (j, Event.commitExecCall g) ∉
      (Do ctx (initPairs (pre ++ bad :: post))).2.2) ∧
    (bad.rollbackExec (getPreparedGid bad) = none →
      ((pState bad).rollback bad).1 =
        { txid := getPreparedGid bad, prepared := true, committed := false,
          rollbacked := true }) := by
  rw [do_commit_fail_eval ctx pre post bad e hpre hbadp hpost hcpre hbadc]
  refine ⟨rfl, ?_, ?_, ?_, ?_⟩
  · simp only [rollbackAll_states, List.map_map, List.map_append,
      List.map_cons]
    have hpre2 : List.map (Prod.snd ∘ (fun x => (x.1, (x.2.rollback x.1).1)) ∘
        fun env => (env, cState env)) pre =
        List.map (fun env => cState env) pre := by
      refine List.map_congr_left ?_
      intro env _
      simp [Function.comp, rollback_cState env]
    have hpost2 : List.map (Prod.snd ∘ (fun x => (x.1, (x.2.rollback x.1).1)) ∘
        fun env => (env, pState env)) post =
        List.map (fun env => ((pState env).rollback env).1) post := by
      refine List.map_congr_left ?_
      intro env _
      simp [Function.comp]
    rw [hpre2, hpost2]
  · intro i g hi hmem
    simp only [List.mem_append] at hmem
    rcases hmem with hx | hx | hx
    · exact phase1_not_rbExec (prepTraceOf_events 0 _ _ hx) g rfl
    · simp only [List.mem_append, List.mem_cons, List.mem_singleton] at hx
      rcases hx with hx | hx | hx
      · have := (commitSeq_events 0 pre _ hx).2
        simp [isCommitCall] at this
      · simp at hx
      · simp at hx
    · rw [rbTraceOf_append] at hx
      simp only [List.mem_append] at hx
      rcases hx with hx | hx
      · rw [rbTraceOf_committed] at hx
        simp only [List.mem_map] at hx
        obtain ⟨j, _, hj⟩ := hx
        have := congrArg Prod.snd hj
        simp at this
      · have := rbTraceOf_tag_ge _ _ _ hx
        simp only [List.length_map] at this
        omega
  · intro j g hj hmem
    simp only [List.mem_append] at hmem
    rcases hmem with hx | hx | hx
    · have := phase1_no_commit (prepTraceOf_events 0 _ _ hx)
      simp [isCommitCall] at this
    · simp only [List.mem_append, List.mem_cons, List.mem_singleton] at hx
      rcases hx with hx | hx | hx
      · have := commitSeq_tag_lt 0 pre _ hx
        simp only [Nat.zero_add] at this
        omega
      · have := congrArg Prod.fst hx
        simp only at this
        omega
      · simp at hx
    · have := rbPass_no_commit (rbTraceOf_events 0 _ _ hx)
      simp [isCommitCall] at this
  · intro hrb
    rw [rollback_active bad (pState bad)
      (by simpa [pState] using getPreparedGid_ne_empty bad) rfl rfl]
    have htx : (pState bad).txid = getPreparedGid bad := rfl
    rw [htx, hrb]
    rfl

/-- C3 counterexample: one participant whose prepare succeeds, whose
commit fails, and whose backend rollback succeeds.  `Do` returns the
wrapped commit error, but the participant does **not** stay Prepared: the
deferred safety-net pass rolls it back (`rollbacked = true`, state
RolledBack). -/
theorem do_commit_failure_cx :
    (Do () (initPairs [envCommitFailU])).1 = some "commit failed: boom" ∧
    (Do () (initPairs [envCommitFailU])).2.1.map Participant.rollbacked =
      [true] := by
  decide

/-- Witness for C3 (amended): participants [ok, commit-fails, ok]; `Do`
returns the wrapped error, the first participant stays Committed, and the
failing participant ends RolledBack. -/
theorem do_commit_failure_behavior_witness :
    (Do () (initPairs ([envOkU] ++ envCommitFailU :: [envOkU]))).1 =
      some ("commit failed: " ++ "boom") ∧
    (Do () (initPairs ([envOkU] ++ envCommitFailU :: [envOkU]))).2.1 =
      [envOkU].map (fun env => cState env) ++
        ((pState envCommitFailU).rollback envCommitFailU).1 ::
          [envOkU].map (fun env => ((pState env).rollback env).1) ∧
    ((pState envCommitFailU).rollback envCommitFailU).1 =
      { txid := getPreparedGid envCommitFailU, prepared := true,
        committed := false, rollbacked := true } := by
  have h := do_commit_failure_behavior () [envOkU] [envOkU] envCommitFailU
    "boom"
    (by
      intro env henv
      simp only [List.mem_singleton] at henv
      subst henv
      exact ⟨rfl, rfl, rfl⟩)
    ⟨rfl, rfl, rfl⟩
    (by
      intro env henv
      simp only [List.mem_singleton] at henv
      subst henv
      exact ⟨rfl, rfl, rfl⟩)
    (by
      intro env henv
      simp only [List.mem_singleton] at henv
      subst henv
      rfl)
    rfl
  exact ⟨h.1, h.2.1, h.2.2.2.2 rfl⟩

/-! ## Claim C5 -/

lemma phase2_not_rbExec {x : Nat × Event} (h : isPhase2Ev x.2 = true) :
    ∀ g, x.2 ≠ Event.rollbackExecCall g := by
  rcases x with ⟨i, ev⟩
  cases ev <;> simp_all [isPhase2Ev]

lemma Do_eval_prepFail {Ctx : Type} (ctx : Ctx)
    (l m1 : List (Env Ctx × Participant)) (t1 : List (Nat × Event))
    (e : String) (hP : prepareLoop ctx 0 l = (m1, some e, t1)) :
    Do ctx l =
      (some e, (rollbackAll 0 m1).1.map Prod.snd, t1 ++ rbTraceOf 0 m1) := by
  simp only [Do, hP, rollbackAll_trace]

lemma Do_eval_commitFail {Ctx : Type} (ctx : Ctx)
    (l m1 m2 : List (Env Ctx × Participant)) (t1 t2 : List (Nat × Event))
    (e : String) (hP : prepareLoop ctx 0 l = (m1, none, t1))
    (hC : commitLoop 0 m1 = (m2, some e, t2)) :
    Do ctx l =
      (some ("commit failed: " ++ e), (rollbackAll 0 m2).1.map Prod.snd,
        t1 ++ t2 ++ rbTraceOf 0 m2) := by
  simp only [Do, hP, hC, rollbackAll_trace]

lemma Do_eval_ok {Ctx : Type} (ctx : Ctx)
    (l m1 m2 : List (Env Ctx × Participant)) (t1 t2 : List (Nat × Event))
    (hP : prepareLoop ctx 0 l = (m1, none, t1))
    (hC : commitLoop 0 m1 = (m2, none, t2)) :
    Do ctx l =
      (none, (rollbackAll 0 m2).1.map Prod.snd,
        t1 ++ t2 ++ rbTraceOf 0 m2) := by
  simp only [Do, hP, hC, rollbackAll_trace]

lemma enterTags_phase1 {Ctx : Type} (ctx : Ctx) (i : Nat)
    (l : List (Env Ctx × Participant)) :
    rollbackEnterTags (prepareLoop ctx i l).2.2 = [] :=
  enterTags_eq_nil
    (fun x hx => phase1_not_enter (prepareLoop_events ctx i l x hx))

lemma enterTags_phase2 {Ctx : Type} (i : Nat)
    (l : List (Env Ctx × Participant)) :
    rollbackEnterTags (commitLoop i l).2.2 = [] :=
  enterTags_eq_nil
    (fun x hx => phase2_not_enter (commitLoop_events i l x hx))

lemma enterTags_trace {Ctx : Type} (t : List (Nat × Event))
    (mid : List (Env Ctx × Participant)) (n : Nat)
    (ht : ∀ x ∈ t, x.2 ≠ Event.rollbackEnter) (hlen : mid.length = n) :
    rollbackEnterTags (t ++ rbTraceOf 0 mid) = List.range n := by
  rw [enterTags_append, enterTags_eq_nil ht, rbTraceOf_enterTags, hlen,
    List.range_eq_range']
  simp

lemma safety_log_of_exec {Ctx : Type} (t : List (Nat × Event))
    (mid l : List (Env Ctx × Participant))
    (ht : ∀ x ∈ t, ∀ g, x.2 ≠ Event.rollbackExecCall g)
    (hfst : mid.map Prod.fst = l.map Prod.fst) :
    ∀ i env p g e, l.get? i = some (env, p) →
      (i, Event.rollbackExecCall g) ∈ t ++ rbTraceOf 0 mid →
      env.rollbackExec g = some e →
      (i, Event.logCall ("rollback failed: " ++ e)) ∈ t ++ rbTraceOf 0 mid := by
  intro i env p g e hl hmem hrbe
  rcases List.mem_append.mp hmem with hx | hx
  · exact absurd rfl (ht _ hx g)
  · obtain ⟨env2, p2, hget, htx, hlog⟩ := rbTraceOf_exec_inv mid 0 i g hx
    rw [Nat.sub_zero] at hget
    have h3 : (mid.map Prod.fst).get? i = (l.map Prod.fst).get? i := by
      rw [hfst]
    rw [List.get?_map, List.get?_map, hget, hl] at h3
    have henv : env2 = env := by simpa using h3
    subst henv
    exact List.mem_append.mpr (Or.inr (hlog e hrbe))

/-- C5: on every exit path of `Do` — success, prepare failure, or commit
failure — the deferred pass calls `rollback()` on every participant in
list order (the rollback-entry tags of the trace are exactly 0,…,N−1 in
order); the run's result never depends on the rollback oracle (two runs
whose participants differ only in `rollbackExec` return the same result,
so a rollback failure cannot change the already-decided return value); and
every failing backend rollback is reported through the log sink
(`"rollback failed: …"` appears in the trace at that participant's
index). -/
theorem do_rollback_safety_net {Ctx : Type} (ctx : Ctx)
    (l1 l2 : List (Env Ctx × Participant))
    (h : l1.map stripRb = l2.map stripRb) :
    rollbackEnterTags (Do ctx l1).2.2 = List.range l1.length ∧
    (Do ctx l1).1 = (Do ctx l2).1 ∧
    (∀ i env p g e, l1.get? i = some (env, p) →
      (i, Event.rollbackExecCall g) ∈ (Do ctx l1).2.2 →
      env.rollbackExec g = some e →
      (i, Event.logCall ("rollback failed: " ++ e)) ∈ (Do ctx l1).2.2) := by
  obtain ⟨hP2, hPm⟩ := prepareLoop_stripRb ctx 0 l1 l2 h
  rcases hA : prepareLoop ctx 0 l1 with ⟨m1, r1, t1⟩
  rcases hB : prepareLoop ctx 0 l2 with ⟨m1', r1', t1'⟩
  rw [hA, hB] at hP2 hPm
  simp only at hP2 hPm
  have hre : r1 = r1' := congrArg Prod.fst hP2
  have hm1len : m1.length = l1.length := by
    have := prepareLoop_length ctx 0 l1
    rw [hA] at this
    simpa using this
  have hm1fst : m1.map Prod.fst = l1.map Prod.fst := by
    have := prepareLoop_fst ctx 0 l1
    rw [hA] at this
    simpa using this
  have ht1ev : ∀ x ∈ t1, isPhase1Ev x.2 = true := by
    have := prepareLoop_events ctx 0 l1
    rw [hA] at this
    simpa using this
  cases r1 with
  | some e =>
    have hB2 : prepareLoop ctx 0 l2 = (m1', some e, t1') := by
      rw [hB, ← hre]
    rw [Do_eval_prepFail ctx l1 m1 t1 e hA,
      Do_eval_prepFail ctx l2 m1' t1' e hB2]
    refine ⟨?_, rfl, ?_⟩
    · exact enterTags_trace t1 m1 l1.length
        (fun x hx => phase1_not_enter (ht1ev x hx)) hm1len
    · exact safety_log_of_exec t1 m1 l1
        (fun x hx => phase1_not_rbExec (ht1ev x hx)) hm1fst
  | none =>
    have hB2 : prepareLoop ctx 0 l2 = (m1', none, t1') := by
      rw [hB, ← hre]
    obtain ⟨hC2, hCm⟩ := commitLoop_stripRb 0 m1 m1' hPm
    rcases hCa : commitLoop 0 m1 with ⟨m2, r2, t2⟩
    rcases hCb : commitLoop 0 m1' with ⟨m2', r2', t2'⟩
    rw [hCa, hCb] at hC2 hCm
    simp only at hC2 hCm
    have hre2 : r2 = r2' := congrArg Prod.fst hC2
    have hm2len : m2.length = l1.length := by
      have := commitLoop_length 0 m1
      rw [hCa] at this
      simp only at this
      rw [this, hm1len]
    have hm2fst : m2.map Prod.fst = l1.map Prod.fst := by
      have := commitLoop_fst 0 m1
      rw [hCa] at this
      simp only at this
      rw [this, hm1fst]
    have ht2ev : ∀ x ∈ t2, isPhase2Ev x.2 = true := by
      have := commitLoop_events 0 m1
      rw [hCa] at this
      simpa using this
    have ht12ne : ∀ x ∈ t1 ++ t2, x.2 ≠ Event.rollbackEnter := by
      intro x hx
      rcases List.mem_append.mp hx with hx | hx
      · exact phase1_not_enter (ht1ev x hx)
      · exact phase2_not_enter (ht2ev x hx)
    have ht12nr : ∀ x ∈ t1 ++ t2, ∀ g, x.2 ≠ Event.rollbackExecCall g := by
      intro x hx
      rcases List.mem_append.mp hx with hx | hx
      · exact phase1_not_rbExec (ht1ev x hx)
      · exact phase2_not_rbExec (ht2ev x hx)
    cases r2 with
    | some e =>
      have hCb2 : commitLoop 0 m1' = (m2', some e, t2') := by
        rw [hCb, ← hre2]
      rw [Do_eval_commitFail ctx l1 m1 m2 t1 t2 e hA hCa,
        Do_eval_commitFail ctx l2 m1' m2' t1' t2' e hB2 hCb2]
      refine ⟨?_, rfl, ?_⟩
      · exact enterTags_trace (t1 ++ t2) m2 l1.length ht12ne hm2len
      · exact safety_log_of_exec (t1 ++ t2) m2 l1 ht12nr hm2fst
    | none =>
      have hCb2 : commitLoop 0 m1' = (m2', none, t2') := by
        rw [hCb, ← hre2]
      rw [Do_eval_ok ctx l1 m1 m2 t1 t2 hA hCa,
        Do_eval_ok ctx l2 m1' m2' t1' t2' hB2 hCb2]
      refine ⟨?_, rfl, ?_⟩
      · exact enterTags_trace (t1 ++ t2) m2 l1.length ht12ne hm2len
      · exact safety_log_of_exec (t1 ++ t2) m2 l1 ht12nr hm2fst

/-- Witness for C5: one participant whose backend rollback fails, compared
with the same participant whose rollback succeeds: rollback is entered at
index 0, the result is unchanged by the rollback outcome, and the failure
is reported through the log sink. -/
theorem do_rollback_safety_net_witness :
    rollbackEnterTags (Do () [(envCommitFailRbFailU, NewParticipant)]).2.2 =
      List.range 1 ∧
    (Do () [(envCommitFailRbFailU, NewParticipant)]).1 =
      (Do () [(envCommitFailU, NewParticipant)]).1 ∧
    (0, Event.logCall ("rollback failed: " ++ "rberr")) ∈
      (Do () [(envCommitFailRbFailU, NewParticipant)]).2.2 := by
  have h := do_rollback_safety_net () [(envCommitFailRbFailU, NewParticipant)]
    [(envCommitFailU, NewParticipant)] rfl
  refine ⟨h.1, h.2.1, ?_⟩
  exact h.2.2 0 envCommitFailRbFailU NewParticipant "gosql2pc-u" "rberr" rfl
    (by decide) rfl
